import Mathlib

/-!
Verification development for the memory MCP server (src/index.ts).

The dispatcher in src/index.ts receives a tool name and an argument bag,
issues a single call to an external Supabase table `memories`, and formats
the result into a response envelope.  We embed:

  * the `memories` table as a list of rows plus a server clock (`Store`);
  * the Record Store operations the dispatcher invokes (upsert with
    onConflict (user_id, memory_key), point lookup via .single(), filtered
    list with ordering, delete, and the tag projection) -- these are
    modelled from the spec, since the store itself is external;
  * the CallTool request handler (`handleCallTool`) translated line by
    line from the switch statement, including the catch-all boundary,
    JavaScript falsy coercion (`tag || null`), and JavaScript object key
    enumeration order for the `list_tags` reduce.

Store failures other than "no matching row" are external nondeterminism;
they are injected through an `Option StoreErr` parameter standing for the
`error` field of the one supabase call a handler makes.
-/

set_option autoImplicit false

namespace MemoryServer

/-- A row of the `memories` table.  `tag` and `metadata` are nullable
columns; `metadata` is kept opaque (its serialized form).  `created_at` and
`updated_at` are server-assigned timestamps, modelled as naturals. -/
structure MemoryRow where
  user_id : String
  memory_key : String
  content : String
  tag : Option String
  metadata : Option String
  created_at : Nat
  updated_at : Nat
deriving Repr, DecidableEq

/-- Modelled from the spec: the external Record Store.  A bag of rows plus
the server clock used to assign timestamps. -/
structure Store where
  rows : List MemoryRow
  now : Nat
deriving Repr, DecidableEq

/-- The predicate selecting the row(s) for a given `(user_id, memory_key)`
pair, as produced by `.eq('user_id', u).eq('memory_key', k)`. -/
def keyMatch (u k : String) (r : MemoryRow) : Bool :=
  r.user_id == u && r.memory_key == k

/-- Modelled from the spec: well-formedness of the store.  The Record Store
enforces a uniqueness constraint on `(user_id, memory_key)`, and every
server-assigned timestamp predates the current clock. -/
def Store.WF (s : Store) : Prop :=
  s.rows.Pairwise (fun a b => ¬(a.user_id = b.user_id ∧ a.memory_key = b.memory_key))
    ∧ ∀ r ∈ s.rows, r.updated_at < s.now

/-- Modelled from the spec: `upsert(..., \x7b onConflict: 'user_id,memory_key' \x7d)`.
If a row with the same `(user_id, memory_key)` exists, its `content`,
`tag`, `metadata` and `updated_at` are replaced in place; otherwise a fresh
row is inserted with both timestamps set to the current clock. -/
def upsertRow (u k c : String) (t m : Option String) (s : Store) : Store :=
  if s.rows.any (keyMatch u k) then
    { rows := s.rows.map (fun r =>
        if keyMatch u k r then
          { r with content := c, tag := t, metadata := m, updated_at := s.now }
        else r),
      now := s.now + 1 }
  else
    let newRow : MemoryRow :=
      { user_id := u, memory_key := k, content := c, tag := t,
        metadata := m, created_at := s.now, updated_at := s.now }
    { rows := s.rows ++ [newRow], now := s.now + 1 }

/-- The update function applied by the upsert on a conflicting pair. -/
def updateFn (u k c : String) (t m : Option String) (now : Nat) (r : MemoryRow) :
    MemoryRow :=
  if keyMatch u k r then
    { r with content := c, tag := t, metadata := m, updated_at := now }
  else r

/-- Modelled from the spec: `.select('*').eq(...).eq(...).single()`.
PostgREST returns a single object exactly when exactly one row matches;
with zero (or several) matching rows `data` is null and the error code is
PGRST116. -/
def lookupSingle (u k : String) (s : Store) : Option MemoryRow :=
  match s.rows.filter (keyMatch u k) with
  | [r] => some r
  | _ => none

/-- Modelled from the spec: `.delete().eq('user_id', u).eq('memory_key', k)`:
every row matching the pair is removed. -/
def deleteRows (u k : String) (s : Store) : Store :=
  { rows := s.rows.filter (fun r => !keyMatch u k r), now := s.now }

/-- Whether `needle` occurs as a contiguous sublist of `hay`. -/
def infixCheck (needle : List Char) : List Char → Bool
  | [] => needle.isEmpty
  | c :: cs => needle.isPrefixOf (c :: cs) || infixCheck needle cs

/-- Case-insensitive containment, the semantics of `ilike '%term%'`. -/
def containsCI (hay needle : String) : Bool :=
  infixCheck needle.toLower.toList hay.toLower.toList

/-- The row predicate of the `list_memories` query: `.eq('user_id', u)`,
then `.eq('tag', t)` when a tag filter is present, then
`.or('memory_key.ilike.%s%,content.ilike.%s%')` when a search filter is
present. -/
def listFilter (u : String) (tagF searchF : Option String) (r : MemoryRow) : Bool :=
  r.user_id == u
    && (match tagF with
        | some t => r.tag == some t
        | none => true)
    && (match searchF with
        | some x => containsCI r.memory_key x || containsCI r.content x
        | none => true)

/-- Insert a row into a list sorted by `updated_at` descending. -/
def insertDesc (r : MemoryRow) : List MemoryRow → List MemoryRow
  | [] => [r]
  | x :: xs => if x.updated_at < r.updated_at then r :: x :: xs else x :: insertDesc r xs

/-- Modelled from the spec: `.order('updated_at', \x7b ascending: false \x7d)`. -/
def sortDesc : List MemoryRow → List MemoryRow
  | [] => []
  | r :: rs => insertDesc r (sortDesc rs)

/-- The projection `select('memory_key, content, tag, created_at, updated_at')`
used by `list_memories`. -/
structure MemoryListItem where
  memory_key : String
  content : String
  tag : Option String
  created_at : Nat
  updated_at : Nat
deriving Repr, DecidableEq

def projectListItem (r : MemoryRow) : MemoryListItem :=
  { memory_key := r.memory_key, content := r.content, tag := r.tag,
    created_at := r.created_at, updated_at := r.updated_at }

/-- Modelled from the spec: the `list_tags` query
`.select('tag').eq('user_id', u).not('tag', 'is', null)` -- the non-null
tags of the user's rows, in row order. -/
def userTags (u : String) (s : Store) : List String :=
  (s.rows.filter (fun r => r.user_id == u && r.tag.isSome)).filterMap MemoryRow.tag

/-- A JavaScript value that can end up stored in the `tagCounts`
accumulator: a number for ordinary tags, or a string when
`(acc[tag] || 0) + 1` read an inherited `Object.prototype` member and
`+` fell back to string concatenation. -/
inductive JsVal where
  | num (n : Nat)
  | str (s : String)
deriving Repr, DecidableEq

/-- The own property keys of `Object.prototype` whose values are ordinary
(writable, truthy) data properties.  Reading one of these through the
prototype chain yields a function object; assigning through it shadows it
with an own property. -/
def protoFunctionKeys : List String :=
  ["constructor", "hasOwnProperty", "isPrototypeOf", "propertyIsEnumerable",
   "toLocaleString", "toString", "valueOf", "__defineGetter__",
   "__defineSetter__", "__lookupGetter__", "__lookupSetter__"]

/-- Every `Object.prototype` property key, including the `__proto__`
accessor. -/
def protoKeys : List String :=
  "__proto__" :: protoFunctionKeys

/-- The string a V8-style engine renders for an inherited built-in
function, as produced by `fn + 1` string concatenation (without the
trailing "1"). -/
def protoFuncString (t : String) : String :=
  "function " ++ t ++ "() \x7b [native code] \x7d"

/-- The own property of the accumulator object for key `t`, if any. -/
def lookupOwn (acc : List (String × JsVal)) (t : String) : Option (String × JsVal) :=
  acc.find? (fun p => p.1 == t)

/-- The value of `(acc[tag] || 0) + 1` on the reduce accumulator: an own
property is read directly (`+ 1` concatenates when it is a string);
absent an own property the read walks the prototype chain, so
`__proto__` yields the (truthy) prototype object and the
`Object.prototype` function keys yield a (truthy) function, both of
which `+ 1` turns into a string; any other absent key reads undefined,
which is falsy, giving 0 + 1. -/
def bumpVal (acc : List (String × JsVal)) (t : String) : JsVal :=
  match lookupOwn acc t with
  | some p =>
    match p.2 with
    | JsVal.num n => if n == 0 then JsVal.num 1 else JsVal.num (n + 1)
    | JsVal.str s => if s == "" then JsVal.num 1 else JsVal.str (s ++ "1")
  | none =>
    if t == "__proto__" then JsVal.str ("[object Object]" ++ "1")
    else if protoFunctionKeys.any (fun y => y == t) then
      JsVal.str (protoFuncString t ++ "1")
    else JsVal.num 1

/-- One step of the `tagCounts` reduce: `acc[tag] = (acc[tag] || 0) + 1` on
a plain JavaScript object (which inherits from `Object.prototype`),
represented as an association list of its own properties in creation
order.  Assigning to `"__proto__"` invokes the inherited accessor setter:
with a primitive right-hand side it does nothing and creates no own
property.  Every other assignment creates or updates an own property. -/
def bumpTag (acc : List (String × JsVal)) (t : String) : List (String × JsVal) :=
  if t == "__proto__" then acc
  else if acc.any (fun p => p.1 == t) then
    acc.map (fun p => if p.1 == t then (p.1, bumpVal acc t) else p)
  else
    acc ++ [(t, bumpVal acc t)]

/-- The client-side frequency count of `list_tags`:
`data.reduce((acc, row) => ..., \x7b\x7d)`. -/
def tagCounts (tags : List String) : List (String × JsVal) :=
  tags.foldl bumpTag []

/-- Decimal parsing over a character list: `some` exactly when every
character is a digit (and the list is nonempty). -/
def strToNatAux : List Char → Nat → Option Nat
  | [], acc => some acc
  | c :: cs, acc =>
    if c.isDigit then strToNatAux cs (acc * 10 + (c.toNat - 48)) else none

/-- Decimal parsing of a string. -/
def strToNat? (s : String) : Option Nat :=
  match s.toList with
  | [] => none
  | cs => strToNatAux cs 0

/-- Whether a string is a JavaScript array-index property key: the
canonical decimal numeral of an integer below 2^32 - 1. -/
def isArrayIndexKey (str : String) : Bool :=
  match strToNat? str with
  | some n => toString n == str && n < 4294967295
  | none => false

/-- Insert into a list of entries sorted by numeric key value ascending. -/
def insertByIdx (p : String × JsVal) : List (String × JsVal) → List (String × JsVal)
  | [] => [p]
  | q :: qs =>
    if ((strToNat? p.1).getD 0) < ((strToNat? q.1).getD 0) then p :: q :: qs
    else q :: insertByIdx p qs

def sortByIdx : List (String × JsVal) → List (String × JsVal)
  | [] => []
  | p :: ps => insertByIdx p (sortByIdx ps)

/-- `Object.entries` enumeration order on a JavaScript object built in the
given creation order: array-index keys first, ascending numerically, then
the remaining string keys in creation order. -/
def objEntries (ps : List (String × JsVal)) : List (String × JsVal) :=
  sortByIdx (ps.filter (fun p => isArrayIndexKey p.1))
    ++ ps.filter (fun p => !isArrayIndexKey p.1)

/-- First-occurrence deduplication: the key creation order of a JavaScript
object built by the `tagCounts` reduce, before enumeration reordering. -/
def dedupFirst (l : List String) : List String :=
  l.foldl (fun ks x => if ks.any (fun y => y == x) then ks else ks ++ [x]) []

/-- The JSON payload serialized into the `text` field of a response.  Each
constructor is one of the object shapes the handler stringifies. -/
inductive Payload where
  | createSuccess (message : String) (key : String)
  | record (key : String) (content : String) (tag : Option String)
      (metadata : Option String) (created_at : Nat) (updated_at : Nat)
  | notFound (message : String)
  | listResult (count : Nat) (memories : List MemoryListItem)
  | forgetSuccess (message : String) (key : String)
  | tagsResult (tags : List (String × JsVal))
  | errorPayload (error : String)
deriving Repr, DecidableEq

/-- One element of the `content` array of a response:
`\x7b type: 'text', text: <JSON> \x7d`. -/
inductive ContentItem where
  | text (payload : Payload)
deriving Repr, DecidableEq

/-- The response envelope: `\x7b content: [...], isError?: boolean \x7d`.
An absent `isError` field is falsy, modelled as `false`. -/
structure Response where
  content : List ContentItem
  isError : Bool
deriving Repr, DecidableEq

def okResponse (p : Payload) : Response :=
  { content := [ContentItem.text p], isError := false }

def errResponse (msg : String) : Response :=
  { content := [ContentItem.text (Payload.errorPayload msg)], isError := true }

/-- The argument bag of a CallTool request.  Fields are unchecked; a field
the caller did not supply is `none` (JavaScript `undefined`).  `metadata`
is the serialized form of the optional object argument; since the bag is
unchecked, a supplied falsy value (schema violations included) is
represented as `some ""`, which `metadata || null` collapses to null just
as it does for `tag`. -/
structure Args where
  user_id : Option String
  key : Option String
  content : Option String
  tag : Option String
  metadata : Option String
  search : Option String
deriving Repr, DecidableEq

/-- JavaScript `x || null` on an optional string: the empty string is
falsy, so both an absent and an empty value collapse to null. -/
def orNull (x : Option String) : Option String :=
  match x with
  | some str => if str = "" then none else some str
  | none => none

/-- An `error` object returned by a supabase call. -/
structure StoreErr where
  code : String
  message : String
deriving Repr, DecidableEq

/-- JavaScript string interpolation of a possibly-undefined value:
`undefined` prints as the string "undefined", which is also how the query
builder serializes it into an `eq` filter. -/
def jsStr (x : Option String) : String :=
  x.getD "undefined"

/-- The CallTool request handler of src/index.ts, translated case by case
from the switch statement.  `fail` stands for the `error` field of the one
supabase call the handler makes (`none` = the call succeeded); the
returned triple is the response envelope, the store after the call, and
the number of store calls made.  The `catch` boundary is the mapping of
every thrown `Error` to the `\x7b error, status: 'error' \x7d` envelope with
`isError: true`; in this total model each `throw` site returns that
envelope directly. -/
def handleCallTool (name : String) (args : Args) (fail : Option StoreErr)
    (s : Store) : Response × Store × Nat :=
  match name with
  | "create_memory" =>
    match fail with
    | some e => (errResponse ("Database error: " ++ e.message), s, 1)
    | none =>
      match args.user_id, args.key, args.content with
      | some u, some k, some c =>
        (okResponse (Payload.createSuccess
            ("Memory " ++ k ++ " saved successfully") k),
          upsertRow u k c (orNull args.tag) (orNull args.metadata) s, 1)
      | _, _, _ =>
        -- a required column is absent from the JSON body; the store
        -- rejects the write with a not-null constraint violation
        (errResponse ("Database error: " ++ "null value violates not-null constraint"), s, 1)
  | "get_memory" =>
    match fail with
    | some e =>
      if e.code = "PGRST116" then
        (okResponse (Payload.notFound
            ("No memory found with key " ++ jsStr args.key)), s, 1)
      else
        (errResponse ("Database error: " ++ e.message), s, 1)
    | none =>
      match lookupSingle (jsStr args.user_id) (jsStr args.key) s with
      | some r =>
        (okResponse (Payload.record r.memory_key r.content r.tag r.metadata
            r.created_at r.updated_at), s, 1)
      | none =>
        (okResponse (Payload.notFound
            ("No memory found with key " ++ jsStr args.key)), s, 1)
  | "list_memories" =>
    match fail with
    | some e => (errResponse ("Database error: " ++ e.message), s, 1)
    | none =>
      let items := (sortDesc ((s.rows).filter
          (listFilter (jsStr args.user_id) (orNull args.tag) (orNull args.search)))).map
          projectListItem
      (okResponse (Payload.listResult items.length items), s, 1)
  | "forget_memory" =>
    match fail with
    | some e => (errResponse ("Database error: " ++ e.message), s, 1)
    | none =>
      (okResponse (Payload.forgetSuccess
          ("Memory " ++ jsStr args.key ++ " deleted successfully") (jsStr args.key)),
        deleteRows (jsStr args.user_id) (jsStr args.key) s, 1)
  | "list_tags" =>
    match fail with
    | some e => (errResponse ("Database error: " ++ e.message), s, 1)
    | none =>
      (okResponse (Payload.tagsResult (objEntries (tagCounts (userTags (jsStr args.user_id) s)))),
        s, 1)
  | other => (errResponse ("Unknown tool: " ++ other), s, 0)

/-! ## Basic lemmas -/

theorem keyMatch_iff (u k : String) (r : MemoryRow) :
    keyMatch u k r = true ↔ r.user_id = u ∧ r.memory_key = k := by
  simp [keyMatch]

theorem filter_not_self (p : MemoryRow → Bool) (l : List MemoryRow) :
    (l.filter (fun r => !p r)).filter p = [] := by
  induction l with
  | nil => rfl
  | cons x xs ih =>
    by_cases h : p x <;> simp [List.filter_cons, h, ih]

theorem lookupSingle_delete (u k : String) (s : Store) :
    lookupSingle u k (deleteRows u k s) = none := by
  unfold lookupSingle deleteRows
  rw [filter_not_self (keyMatch u k) s.rows]

/-! ## Claim theorems: deletion and lookup misses -/

/-- C4: `forget_memory` is idempotent and non-failing on absence: for
every `(user_id, key)` and any store, it returns the success payload
(which never depends on whether a matching record existed), and a
subsequent `get_memory` on the same pair yields `not_found`, not an
error. -/
theorem forget_idempotent_then_get_not_found (u k : String) (s : Store) :
    (handleCallTool "forget_memory" ⟨some u, some k, none, none, none, none⟩ none s).1
      = okResponse (Payload.forgetSuccess ("Memory " ++ k ++ " deleted successfully") k)
    ∧ (handleCallTool "get_memory" ⟨some u, some k, none, none, none, none⟩ none
        (handleCallTool "forget_memory" ⟨some u, some k, none, none, none, none⟩ none s).2.1).1
      = okResponse (Payload.notFound ("No memory found with key " ++ k)) := by
  constructor
  · simp [handleCallTool, jsStr]
  · simp [handleCallTool, jsStr, lookupSingle_delete]

/-- C3: when no record matches `(user_id, key)`, `get_memory` returns the
non-error `not_found` payload; a store failure whose code is not PGRST116
is surfaced as an error envelope instead. -/
theorem get_memory_not_found (u k : String) (s : Store) (e : StoreErr)
    (hnone : ∀ r ∈ s.rows, ¬(r.user_id = u ∧ r.memory_key = k))
    (hcode : e.code ≠ "PGRST116") :
    (handleCallTool "get_memory" ⟨some u, some k, none, none, none, none⟩ none s).1
      = okResponse (Payload.notFound ("No memory found with key " ++ k))
    ∧ (handleCallTool "get_memory" ⟨some u, some k, none, none, none, none⟩ (some e) s).1
      = errResponse ("Database error: " ++ e.message) := by
  have hfil : s.rows.filter (keyMatch u k) = [] := by
    rw [List.filter_eq_nil_iff]
    intro r hr
    have := hnone r hr
    simp [keyMatch_iff]
    intro h1 h2
    exact this ⟨h1, h2⟩
  constructor
  · simp [handleCallTool, jsStr, lookupSingle, hfil]
  · simp [handleCallTool, jsStr, hcode]

/-- Witness for C3 at a concrete input: the empty store, key
"nonexistent", and a store failure with code "500". -/
theorem get_memory_not_found_witness :
    (handleCallTool "get_memory" ⟨some "u1", some "nonexistent", none, none, none, none⟩
        none ⟨[], 0⟩).1
      = okResponse (Payload.notFound ("No memory found with key " ++ "nonexistent"))
    ∧ (handleCallTool "get_memory" ⟨some "u1", some "nonexistent", none, none, none, none⟩
        (some ⟨"500", "connection refused"⟩) ⟨[], 0⟩).1
      = errResponse ("Database error: " ++ "connection refused") :=
  get_memory_not_found "u1" "nonexistent" ⟨[], 0⟩ ⟨"500", "connection refused"⟩
    (by simp) (by decide)

/-- C9: an operation name outside the five-entry catalog yields the error
envelope "Unknown tool: <name>", the store is untouched, and no store
call is made. -/
theorem unknown_tool_error (name : String) (args : Args) (fail : Option StoreErr) (s : Store)
    (h : name ∉ (["create_memory", "get_memory", "list_memories",
        "forget_memory", "list_tags"] : List String)) :
    handleCallTool name args fail s = (errResponse ("Unknown tool: " ++ name), s, 0) := by
  simp only [List.mem_cons, List.not_mem_nil, or_false] at h
  push_neg at h
  obtain ⟨h1, h2, h3, h4, h5⟩ := h
  unfold handleCallTool
  split <;> simp_all

/-- Witness for C9 at the concrete name "delete_all". -/
theorem unknown_tool_error_witness :
    handleCallTool "delete_all" ⟨some "u1", none, none, none, none, none⟩ none ⟨[], 0⟩
      = (errResponse ("Unknown tool: " ++ "delete_all"), ⟨[], 0⟩, 0) :=
  unknown_tool_error "delete_all" ⟨some "u1", none, none, none, none, none⟩ none ⟨[], 0⟩
    (by decide)

/-! ## Upsert lemmas -/

theorem orNull_eq_self (t : Option String) (h : t ≠ some "") : orNull t = t := by
  cases t with
  | none => rfl
  | some str =>
    have hs : str ≠ "" := fun he => h (by rw [he])
    simp [orNull, hs]

theorem upsertRow_rows_pos (u k c : String) (t m : Option String) (s : Store)
    (hany : s.rows.any (keyMatch u k) = true) :
    (upsertRow u k c t m s).rows = s.rows.map (updateFn u k c t m s.now) := by
  unfold upsertRow updateFn
  rw [if_pos hany]

theorem upsertRow_rows_neg (u k c : String) (t m : Option String) (s : Store)
    (hany : s.rows.any (keyMatch u k) = false) :
    (upsertRow u k c t m s).rows
      = s.rows ++ [{ user_id := u, memory_key := k, content := c, tag := t,
                     metadata := m, created_at := s.now, updated_at := s.now }] := by
  unfold upsertRow
  rw [if_neg (by simp [hany])]

theorem upsertRow_now (u k c : String) (t m : Option String) (s : Store) :
    (upsertRow u k c t m s).now = s.now + 1 := by
  unfold upsertRow
  by_cases h : s.rows.any (keyMatch u k)
  · rw [if_pos h]
  · rw [if_neg h]

theorem updateFn_keyMatch (u k c : String) (t m : Option String) (now : Nat)
    (r : MemoryRow) : keyMatch u k (updateFn u k c t m now r) = keyMatch u k r := by
  unfold updateFn
  by_cases h : keyMatch u k r
  · rw [if_pos h]
    rfl
  · rw [if_neg h]

theorem filter_map_keyPreserving (u k : String) (f : MemoryRow → MemoryRow)
    (hf : ∀ r, keyMatch u k (f r) = keyMatch u k r) (l : List MemoryRow) :
    (l.map f).filter (keyMatch u k) = (l.filter (keyMatch u k)).map f := by
  induction l with
  | nil => rfl
  | cons x xs ih =>
    by_cases h : keyMatch u k x <;>
      simp [List.filter_cons, hf, h, ih]

/-- Under the uniqueness invariant, the rows matching a pair form at most a
singleton. -/
theorem filter_keyMatch_short (u k : String) (l : List MemoryRow)
    (hp : l.Pairwise (fun a b => ¬(a.user_id = b.user_id ∧ a.memory_key = b.memory_key))) :
    l.filter (keyMatch u k) = [] ∨ ∃ r, l.filter (keyMatch u k) = [r] := by
  rcases hfl : l.filter (keyMatch u k) with _ | ⟨a, _ | ⟨b, rest⟩⟩
  · exact Or.inl rfl
  · exact Or.inr ⟨a, rfl⟩
  · exfalso
    have hpf := hp.filter (keyMatch u k)
    rw [hfl] at hpf
    have hab := (List.pairwise_cons.mp hpf).1 b (by simp)
    have hamem : a ∈ l.filter (keyMatch u k) := by rw [hfl]; simp
    have hbmem : b ∈ l.filter (keyMatch u k) := by rw [hfl]; simp
    have ha := (keyMatch_iff u k a).mp (List.of_mem_filter hamem)
    have hb := (keyMatch_iff u k b).mp (List.of_mem_filter hbmem)
    exact hab ⟨ha.1.trans hb.1.symm, ha.2.trans hb.2.symm⟩

/-- After an upsert for `(u, k)`, the rows matching `(u, k)` are exactly
one row carrying the upserted `content`, `tag` and `metadata`. -/
theorem upsert_filter (u k c : String) (t m : Option String) (s : Store) (hWF : s.WF) :
    ∃ ca ua, (upsertRow u k c t m s).rows.filter (keyMatch u k)
      = [{ user_id := u, memory_key := k, content := c, tag := t, metadata := m,
           created_at := ca, updated_at := ua }] := by
  by_cases hany : s.rows.any (keyMatch u k)
  · rw [upsertRow_rows_pos u k c t m s hany,
      filter_map_keyPreserving u k _ (updateFn_keyMatch u k c t m s.now)]
    rcases filter_keyMatch_short u k s.rows hWF.1 with hnil | ⟨r0, hr0⟩
    · exfalso
      obtain ⟨r, hrmem, hrk⟩ := List.any_eq_true.mp hany
      have : r ∈ s.rows.filter (keyMatch u k) := List.mem_filter.mpr ⟨hrmem, hrk⟩
      rw [hnil] at this
      exact absurd this (List.not_mem_nil r)
    · have hr0match : keyMatch u k r0 = true := by
        have : r0 ∈ s.rows.filter (keyMatch u k) := by rw [hr0]; simp
        exact List.of_mem_filter this
      obtain ⟨h1, h2⟩ := (keyMatch_iff u k r0).mp hr0match
      refine ⟨r0.created_at, s.now, ?_⟩
      rw [hr0]
      unfold updateFn
      simp only [List.map_cons, List.map_nil]
      rw [if_pos hr0match]
      congr 1
      simp [h1, h2]
  · have hanyf : s.rows.any (keyMatch u k) = false := by
      simpa using hany
    rw [upsertRow_rows_neg u k c t m s hanyf]
    have hnil : s.rows.filter (keyMatch u k) = [] := by
      rw [List.filter_eq_nil_iff]
      intro r hr hcontra
      exact hany (List.any_eq_true.mpr ⟨r, hr, hcontra⟩)
    refine ⟨s.now, s.now, ?_⟩
    rw [List.filter_append, hnil]
    simp [keyMatch]

/-- Upsert preserves the store invariant. -/
theorem upsert_WF (u k c : String) (t m : Option String) (s : Store) (hWF : s.WF) :
    (upsertRow u k c t m s).WF := by
  obtain ⟨hpw, hts⟩ := hWF
  unfold Store.WF
  rw [upsertRow_now u k c t m s]
  by_cases hany : s.rows.any (keyMatch u k)
  · rw [upsertRow_rows_pos u k c t m s hany]
    constructor
    · rw [List.pairwise_map]
      refine hpw.imp ?_
      intro a b hab
      unfold updateFn
      by_cases ha : keyMatch u k a <;> by_cases hb : keyMatch u k b <;>
        simpa [ha, hb] using hab
    · intro r' hr'
      rw [List.mem_map] at hr'
      obtain ⟨r, hr, rfl⟩ := hr'
      unfold updateFn
      by_cases h : keyMatch u k r
      · rw [if_pos h]
        exact Nat.lt_succ_self _
      · rw [if_neg h]
        exact Nat.lt_succ_of_lt (hts r hr)
  · have hanyf : s.rows.any (keyMatch u k) = false := by
      simpa using hany
    rw [upsertRow_rows_neg u k c t m s hanyf]
    constructor
    · rw [List.pairwise_append]
      refine ⟨hpw, List.pairwise_singleton _ _, ?_⟩
      intro a ha b hb
      simp only [List.mem_singleton] at hb
      subst hb
      intro hcontra
      have hmatch : keyMatch u k a = true :=
        (keyMatch_iff u k a).mpr ⟨hcontra.1, hcontra.2⟩
      exact hany (List.any_eq_true.mpr ⟨a, ha, hmatch⟩)
    · intro r hr
      rcases List.mem_append.mp hr with h | h
      · exact Nat.lt_succ_of_lt (hts r h)
      · simp only [List.mem_singleton] at h
        subst h
        exact Nat.lt_succ_self _

/-! ## Claim theorems: create/get round trip and upsert law -/

/-- C1: creating a memory and then getting the same `(user_id, key)`
returns a success record payload whose `content` equals the content passed
to create (and whose `key` is the requested key). -/
theorem create_then_get_content (s : Store) (hWF : s.WF) (u k c : String)
    (t m : Option String) :
    ∃ tg md ca ua,
      (handleCallTool "get_memory" ⟨some u, some k, none, none, none, none⟩ none
        (handleCallTool "create_memory" ⟨some u, some k, some c, t, m, none⟩ none s).2.1).1
      = okResponse (Payload.record k c tg md ca ua) := by
  have hstore : (handleCallTool "create_memory" ⟨some u, some k, some c, t, m, none⟩
      none s).2.1 = upsertRow u k c (orNull t) (orNull m) s := by
    simp [handleCallTool]
  rw [hstore]
  obtain ⟨ca, ua, hfil⟩ := upsert_filter u k c (orNull t) (orNull m) s hWF
  refine ⟨orNull t, orNull m, ca, ua, ?_⟩
  simp [handleCallTool, jsStr, lookupSingle, hfil]

/-- Witness for C1: create("u1", "favorite_food", "sushi", tag
"personal") then get("u1", "favorite_food") on the empty store. -/
theorem create_then_get_content_witness :
    ∃ tg md ca ua,
      (handleCallTool "get_memory" ⟨some "u1", some "favorite_food", none, none, none, none⟩
        none
        (handleCallTool "create_memory"
          ⟨some "u1", some "favorite_food", some "sushi", some "personal", none, none⟩
          none ⟨[], 0⟩).2.1).1
      = okResponse (Payload.record "favorite_food" "sushi" tg md ca ua) :=
  create_then_get_content ⟨[], 0⟩ ⟨List.Pairwise.nil, by simp⟩ "u1" "favorite_food" "sushi"
    (some "personal") none

/-- C2: calling create twice with the same `(user_id, key)` but different
content leaves exactly one record for that pair, carrying the second
call's `content`, `tag` and `metadata` (upsert replaces in place, never
duplicates). -/
theorem upsert_unique_pair_second_wins (s : Store) (hWF : s.WF) (u k c1 c2 : String)
    (t1 t2 m1 m2 : Option String) (_hc : c1 ≠ c2) (ht2 : t2 ≠ some "")
    (hm2 : m2 ≠ some "") :
    ∃ ca ua,
      ((handleCallTool "create_memory" ⟨some u, some k, some c2, t2, m2, none⟩ none
        (handleCallTool "create_memory" ⟨some u, some k, some c1, t1, m1, none⟩ none
          s).2.1).2.1).rows.filter (keyMatch u k)
      = [{ user_id := u, memory_key := k, content := c2, tag := t2, metadata := m2,
           created_at := ca, updated_at := ua }] := by
  have hstore1 : (handleCallTool "create_memory" ⟨some u, some k, some c1, t1, m1, none⟩
      none s).2.1 = upsertRow u k c1 (orNull t1) (orNull m1) s := by
    simp [handleCallTool]
  have hstore2 : (handleCallTool "create_memory" ⟨some u, some k, some c2, t2, m2, none⟩
      none (upsertRow u k c1 (orNull t1) (orNull m1) s)).2.1
      = upsertRow u k c2 (orNull t2) (orNull m2)
          (upsertRow u k c1 (orNull t1) (orNull m1) s) := by
    simp [handleCallTool]
  rw [hstore1, hstore2, orNull_eq_self t2 ht2, orNull_eq_self m2 hm2]
  have hWF1 := upsert_WF u k c1 (orNull t1) (orNull m1) s hWF
  obtain ⟨ca, ua, hfil⟩ := upsert_filter u k c2 t2 m2 _ hWF1
  exact ⟨ca, ua, hfil⟩

/-- Witness for C2: two creates for ("u1", "k1") with contents "first"
and "second" on the empty store. -/
theorem upsert_unique_pair_second_wins_witness :
    ∃ ca ua,
      ((handleCallTool "create_memory" ⟨some "u1", some "k1", some "second", none, some "m2", none⟩
        none
        (handleCallTool "create_memory" ⟨some "u1", some "k1", some "first", some "t1", none, none⟩
          none ⟨[], 0⟩).2.1).2.1).rows.filter (keyMatch "u1" "k1")
      = [{ user_id := "u1", memory_key := "k1", content := "second", tag := none,
           metadata := some "m2", created_at := ca, updated_at := ua }] :=
  upsert_unique_pair_second_wins ⟨[], 0⟩ ⟨List.Pairwise.nil, by simp⟩ "u1" "k1"
    "first" "second" (some "t1") none none (some "m2") (by decide) (by decide) (by decide)

/-! ## Claim theorems: fail-safe boundary and falsy coercion -/

/-- Every invocation produces a response envelope holding exactly one text
content item: the handler is total and never escapes its boundary. -/
theorem handle_content_shape (n : String) (a : Args) (f : Option StoreErr) (st : Store) :
    ∃ p, ((handleCallTool n a f st).1).content = [ContentItem.text p] := by
  unfold handleCallTool
  repeat' first
  | exact ⟨_, rfl⟩
  | split

/-- C5: the dispatcher always returns a well-formed envelope (one text
content item) for every operation name, argument bag, store state and
injected store failure; and every store failure raised during one of the
five catalog operations, except PGRST116 on get_memory's point lookup, is
returned as an error payload with the fixed prefix "Database error: " and
`isError` set. -/
theorem dispatcher_envelope_and_error_wrapping (name : String) (args : Args)
    (s : Store) (e : StoreErr)
    (hmem : name ∈ (["create_memory", "get_memory", "list_memories",
        "forget_memory", "list_tags"] : List String))
    (hexc : ¬(name = "get_memory" ∧ e.code = "PGRST116")) :
    (∀ (n : String) (a : Args) (f : Option StoreErr) (st : Store),
        ∃ p, ((handleCallTool n a f st).1).content = [ContentItem.text p])
    ∧ (handleCallTool name args (some e) s).1
        = errResponse ("Database error: " ++ e.message)
    ∧ ((handleCallTool name args (some e) s).1).isError = true := by
  have h2 : (handleCallTool name args (some e) s).1
      = errResponse ("Database error: " ++ e.message) := by
    fin_cases hmem
    · rfl
    · have hc : ¬(e.code = "PGRST116") := fun h => hexc ⟨rfl, h⟩
      simp [handleCallTool, hc]
    · rfl
    · rfl
    · rfl
  exact ⟨handle_content_shape, h2, by rw [h2]; rfl⟩

/-- Witness for C5 at the concrete operation "create_memory" and the
store failure ("500", "boom"). -/
theorem dispatcher_envelope_and_error_wrapping_witness :
    (∀ (n : String) (a : Args) (f : Option StoreErr) (st : Store),
        ∃ p, ((handleCallTool n a f st).1).content = [ContentItem.text p])
    ∧ (handleCallTool "create_memory" ⟨some "u1", some "k1", some "c1", none, none, none⟩
        (some ⟨"500", "boom"⟩) ⟨[], 0⟩).1
        = errResponse ("Database error: " ++ "boom")
    ∧ ((handleCallTool "create_memory" ⟨some "u1", some "k1", some "c1", none, none, none⟩
        (some ⟨"500", "boom"⟩) ⟨[], 0⟩).1).isError = true :=
  dispatcher_envelope_and_error_wrapping "create_memory"
    ⟨some "u1", some "k1", some "c1", none, none, none⟩ ⟨[], 0⟩ ⟨"500", "boom"⟩
    (by decide) (by decide)

/-- C10: falsy optional arguments are treated as absent.  Supplying a
falsy `tag` or `metadata` to create_memory persists null for that column
(same outcome as omitting the argument), so an explicit empty-string tag
is stored as null; supplying the empty string as `tag` or `search` to
list_memories applies no filter (same response as omitting it). -/
theorem falsy_optionals_treated_as_absent (s : Store) (args : Args)
    (u k c : String) :
    handleCallTool "create_memory" { args with tag := some "" } none s
      = handleCallTool "create_memory" { args with tag := none } none s
    ∧ handleCallTool "create_memory" { args with metadata := some "" } none s
      = handleCallTool "create_memory" { args with metadata := none } none s
    ∧ (handleCallTool "create_memory" ⟨some u, some k, some c, some "", some "", none⟩
        none s).2.1
      = upsertRow u k c none none s
    ∧ handleCallTool "list_memories" { args with tag := some "" } none s
      = handleCallTool "list_memories" { args with tag := none } none s
    ∧ handleCallTool "list_memories" { args with search := some "" } none s
      = handleCallTool "list_memories" { args with search := none } none s := by
  rcases args with ⟨uo, ko, co, tg, mo, so⟩
  refine ⟨?_, ?_, ?_, ?_, ?_⟩
  · rcases uo with _ | u' <;> rcases ko with _ | k' <;> rcases co with _ | c' <;>
      simp [handleCallTool, orNull]
  · rcases uo with _ | u' <;> rcases ko with _ | k' <;> rcases co with _ | c' <;>
      simp [handleCallTool, orNull]
  · simp [handleCallTool, orNull]
  · simp [handleCallTool, orNull]
  · simp [handleCallTool, orNull]

/-! ## Ordering lemmas for list_memories -/

theorem mem_insertDesc (r a : MemoryRow) (l : List MemoryRow) :
    a ∈ insertDesc r l ↔ a = r ∨ a ∈ l := by
  induction l with
  | nil => simp [insertDesc]
  | cons x xs ih =>
    unfold insertDesc
    by_cases h : x.updated_at < r.updated_at
    · rw [if_pos h]
      simp [List.mem_cons]
    · rw [if_neg h]
      simp [List.mem_cons, ih]
      tauto

theorem mem_sortDesc (a : MemoryRow) (l : List MemoryRow) :
    a ∈ sortDesc l ↔ a ∈ l := by
  induction l with
  | nil => simp [sortDesc]
  | cons x xs ih => simp [sortDesc, mem_insertDesc, ih]

theorem sorted_insertDesc (r : MemoryRow) (l : List MemoryRow)
    (hl : l.Pairwise (fun a b => b.updated_at ≤ a.updated_at)) :
    (insertDesc r l).Pairwise (fun a b => b.updated_at ≤ a.updated_at) := by
  induction l with
  | nil => simp [insertDesc]
  | cons x xs ih =>
    obtain ⟨hx, hxs⟩ := List.pairwise_cons.mp hl
    unfold insertDesc
    by_cases h : x.updated_at < r.updated_at
    · rw [if_pos h]
      refine List.pairwise_cons.mpr ⟨?_, hl⟩
      intro b hb
      rcases List.mem_cons.mp hb with rfl | hbxs
      · exact Nat.le_of_lt h
      · exact le_trans (hx b hbxs) (Nat.le_of_lt h)
    · rw [if_neg h]
      refine List.pairwise_cons.mpr ⟨?_, ih hxs⟩
      intro b hb
      rcases (mem_insertDesc r b xs).mp hb with rfl | hbxs
      · exact Nat.le_of_not_lt h
      · exact hx b hbxs

theorem sorted_sortDesc (l : List MemoryRow) :
    (sortDesc l).Pairwise (fun a b => b.updated_at ≤ a.updated_at) := by
  induction l with
  | nil => exact List.Pairwise.nil
  | cons x xs ih => exact sorted_insertDesc x (sortDesc xs) ih

theorem listFilter_both_iff (u t x : String) (r : MemoryRow) :
    listFilter u (some t) (some x) r = true
      ↔ r.user_id = u ∧ r.tag = some t
        ∧ (containsCI r.memory_key x = true ∨ containsCI r.content x = true) := by
  simp [listFilter, Bool.and_eq_true, Bool.or_eq_true]
  tauto

/-! ## Claim theorems: list_memories -/

/-- C7: `list_memories` returns the user's records ordered by
`updated_at` descending, each projected to the five list columns, and a
`count` equal to the number of returned records. -/
theorem list_memories_ordered_projected (s : Store) (u : String) :
    ∃ L, (handleCallTool "list_memories" ⟨some u, none, none, none, none, none⟩ none s).1
        = okResponse (Payload.listResult L.length L)
      ∧ L.Pairwise (fun a b => b.updated_at ≤ a.updated_at)
      ∧ ∀ item ∈ L, ∃ r ∈ s.rows, r.user_id = u ∧ item = projectListItem r := by
  refine ⟨(sortDesc (s.rows.filter (listFilter u none none))).map projectListItem,
    ?_, ?_, ?_⟩
  · simp [handleCallTool, jsStr, orNull]
  · rw [List.pairwise_map]
    refine (sorted_sortDesc _).imp ?_
    intro a b hab
    exact hab
  · intro item hitem
    rw [List.mem_map] at hitem
    obtain ⟨r, hr, rfl⟩ := hitem
    rw [mem_sortDesc] at hr
    obtain ⟨hmem, hfil⟩ := List.mem_filter.mp hr
    refine ⟨r, hmem, ?_, rfl⟩
    simpa [listFilter] using hfil

/-- C6: with both a (nonempty) tag and a (nonempty) search term supplied,
`list_memories` returns exactly the user's records with that exact tag
whose key or content case-insensitively contains the search term: the two
filters compose with logical AND, and either matching field qualifies for
the search side. -/
theorem list_memories_tag_search_and (s : Store) (u t x : String)
    (ht : t ≠ "") (hx : x ≠ "") :
    ∃ L, (handleCallTool "list_memories" ⟨some u, none, none, some t, none, some x⟩ none s).1
        = okResponse (Payload.listResult L.length L)
      ∧ ∀ item, item ∈ L ↔ ∃ r ∈ s.rows, item = projectListItem r
          ∧ r.user_id = u ∧ r.tag = some t
          ∧ (containsCI r.memory_key x = true ∨ containsCI r.content x = true) := by
  have hts : orNull (some t) = some t := orNull_eq_self _ (by simpa using ht)
  have hxs : orNull (some x) = some x := orNull_eq_self _ (by simpa using hx)
  refine ⟨(sortDesc (s.rows.filter (listFilter u (some t) (some x)))).map projectListItem,
    ?_, ?_⟩
  · simp [handleCallTool, jsStr, hts, hxs]
  · intro item
    rw [List.mem_map]
    constructor
    · rintro ⟨r, hr, rfl⟩
      rw [mem_sortDesc] at hr
      obtain ⟨hmem, hfil⟩ := List.mem_filter.mp hr
      obtain ⟨h1, h2, h3⟩ := (listFilter_both_iff u t x r).mp hfil
      exact ⟨r, hmem, rfl, h1, h2, h3⟩
    · rintro ⟨r, hmem, rfl, h1, h2, h3⟩
      refine ⟨r, ?_, rfl⟩
      rw [mem_sortDesc]
      exact List.mem_filter.mpr ⟨hmem, (listFilter_both_iff u t x r).mpr ⟨h1, h2, h3⟩⟩

/-- Witness for C6: one matching record, tag "work", search term "WORLD"
matching the content "hello world" case-insensitively. -/
theorem list_memories_tag_search_and_witness :
    ∃ L, (handleCallTool "list_memories"
          ⟨some "u1", none, none, some "work", none, some "WORLD"⟩ none
          ⟨[{ user_id := "u1", memory_key := "alpha", content := "hello world",
              tag := some "work", metadata := none, created_at := 0, updated_at := 0 }], 1⟩).1
        = okResponse (Payload.listResult L.length L)
      ∧ ∀ item, item ∈ L ↔ ∃ r ∈ [({ user_id := "u1", memory_key := "alpha",
                                      content := "hello world", tag := some "work",
                                      metadata := none, created_at := 0,
                                      updated_at := 0 } : MemoryRow)],
          item = projectListItem r
          ∧ r.user_id = "u1" ∧ r.tag = some "work"
          ∧ (containsCI r.memory_key "WORLD" = true ∨ containsCI r.content "WORLD" = true) :=
  list_memories_tag_search_and
    ⟨[{ user_id := "u1", memory_key := "alpha", content := "hello world",
        tag := some "work", metadata := none, created_at := 0, updated_at := 0 }], 1⟩
    "u1" "work" "WORLD" (by decide) (by decide)

/-! ## list_tags lemmas: key order, permutations, counting -/

theorem filter_comp_map {α β : Type} (f : α → β) (p : β → Bool) (l : List α) :
    (l.filter (fun a => p (f a))).map f = (l.map f).filter p := by
  induction l with
  | nil => rfl
  | cons x xs ih => by_cases h : p (f x) <;> simp [List.filter_cons, h, ih]

theorem any_map_eq {α β : Type} (f : α → β) (p : β → Bool) (l : List α) :
    (l.map f).any p = l.any (fun a => p (f a)) := by
  induction l with
  | nil => rfl
  | cons x xs ih => simp [List.any_cons, ih]

theorem bumpTag_keys (acc : List (String × JsVal)) (x : String)
    (hx : x ≠ "__proto__") :
    (bumpTag acc x).map Prod.fst
      = if (acc.map Prod.fst).any (fun y => y == x) then acc.map Prod.fst
        else acc.map Prod.fst ++ [x] := by
  unfold bumpTag
  rw [if_neg (show ¬((x == "__proto__") = true) by simp [hx]), any_map_eq]
  by_cases h : acc.any (fun p => p.1 == x)
  · rw [if_pos h, if_pos h, List.map_map]
    apply List.map_congr_left
    intro p _
    by_cases hp : p.1 = x <;> simp [hp]
  · rw [if_neg h, if_neg h, List.map_append]
    rfl

theorem foldl_bumpTag_keys (l : List String) :
    ∀ acc : List (String × JsVal), (∀ t ∈ l, t ≠ "__proto__") →
      (l.foldl bumpTag acc).map Prod.fst
        = l.foldl (fun ks x => if ks.any (fun y => y == x) then ks else ks ++ [x])
            (acc.map Prod.fst) := by
  induction l with
  | nil => intro acc _; rfl
  | cons x xs ih =>
    intro acc hl
    rw [List.foldl_cons, List.foldl_cons,
      ih (bumpTag acc x) (fun t ht => hl t (List.mem_cons_of_mem x ht)),
      bumpTag_keys acc x (hl x (List.mem_cons_self x xs))]

theorem tagCounts_keys (l : List String) (hl : ∀ t ∈ l, t ≠ "__proto__") :
    (tagCounts l).map Prod.fst = dedupFirst l := by
  unfold tagCounts dedupFirst
  exact foldl_bumpTag_keys l [] hl

theorem perm_insertByIdx (q : String × JsVal) (l : List (String × JsVal)) :
    (insertByIdx q l).Perm (q :: l) := by
  induction l with
  | nil => exact List.Perm.refl _
  | cons y ys ih =>
    unfold insertByIdx
    by_cases h : (strToNat? q.1).getD 0 < (strToNat? y.1).getD 0
    · rw [if_pos h]
    · rw [if_neg h]
      exact (ih.cons y).trans (List.Perm.swap q y ys)

theorem perm_sortByIdx (l : List (String × JsVal)) : (sortByIdx l).Perm l := by
  induction l with
  | nil => exact List.Perm.refl _
  | cons p ps ih =>
    exact (perm_insertByIdx p (sortByIdx ps)).trans (ih.cons p)

theorem sorted_insertByIdx (q : String × JsVal) (l : List (String × JsVal))
    (hl : l.Pairwise (fun a b => (strToNat? a.1).getD 0 ≤ (strToNat? b.1).getD 0)) :
    (insertByIdx q l).Pairwise (fun a b => (strToNat? a.1).getD 0 ≤ (strToNat? b.1).getD 0) := by
  induction l with
  | nil => simp [insertByIdx]
  | cons y ys ih =>
    obtain ⟨hy, hys⟩ := List.pairwise_cons.mp hl
    unfold insertByIdx
    by_cases h : (strToNat? q.1).getD 0 < (strToNat? y.1).getD 0
    · rw [if_pos h]
      refine List.pairwise_cons.mpr ⟨?_, hl⟩
      intro b hb
      rcases List.mem_cons.mp hb with rfl | hbys
      · exact Nat.le_of_lt h
      · exact le_trans (Nat.le_of_lt h) (hy b hbys)
    · rw [if_neg h]
      refine List.pairwise_cons.mpr ⟨?_, ih hys⟩
      intro b hb
      rcases List.mem_cons.mp ((perm_insertByIdx q ys).mem_iff.mp hb) with rfl | hbys
      · exact Nat.le_of_not_lt h
      · exact hy b hbys

theorem sorted_sortByIdx (l : List (String × JsVal)) :
    (sortByIdx l).Pairwise (fun a b => (strToNat? a.1).getD 0 ≤ (strToNat? b.1).getD 0) := by
  induction l with
  | nil => exact List.Pairwise.nil
  | cons p ps ih => exact sorted_insertByIdx p (sortByIdx ps) ih

theorem perm_objEntries (ps : List (String × JsVal)) : (objEntries ps).Perm ps := by
  unfold objEntries
  exact ((perm_sortByIdx _).append_right _).trans (List.filter_append_perm _ ps)

theorem count_append_single (pr : List String) (x t : String) :
    (pr ++ [x]).count t = pr.count t + if t = x then 1 else 0 := by
  rw [List.count_append]
  by_cases h : t = x <;> simp [h]

theorem lookupOwn_of_mem (acc : List (String × JsVal)) (t : String) (v : JsVal)
    (hnd : (acc.map Prod.fst).Nodup) (hmem : (t, v) ∈ acc) :
    lookupOwn acc t = some (t, v) := by
  unfold lookupOwn
  induction acc with
  | nil => cases hmem
  | cons q qs ih =>
    rw [List.map_cons, List.nodup_cons] at hnd
    rcases List.mem_cons.mp hmem with heq | hmem'
    · rw [← heq]
      rw [List.find?_cons_of_pos _ (by simp)]
    · by_cases hq : q.1 = t
      · exfalso
        apply hnd.1
        rw [hq]
        exact List.mem_map.mpr ⟨(t, v), hmem', rfl⟩
      · rw [List.find?_cons_of_neg _ (by simp [hq])]
        exact ih hnd.2 hmem'

theorem lookupOwn_eq_none (acc : List (String × JsVal)) (t : String)
    (h : ∀ p ∈ acc, p.1 ≠ t) : lookupOwn acc t = none := by
  unfold lookupOwn
  rw [List.find?_eq_none]
  intro p hp
  simp [h p hp]

theorem bumpVal_of_mem (acc : List (String × JsVal)) (t : String) (n : Nat)
    (hnd : (acc.map Prod.fst).Nodup) (hmem : (t, JsVal.num n) ∈ acc) (hn : n ≠ 0) :
    bumpVal acc t = JsVal.num (n + 1) := by
  unfold bumpVal
  rw [lookupOwn_of_mem acc t (JsVal.num n) hnd hmem]
  simp [hn]

theorem bumpVal_fresh (acc : List (String × JsVal)) (t : String)
    (hown : ∀ p ∈ acc, p.1 ≠ t) (ht : t ∉ protoKeys) :
    bumpVal acc t = JsVal.num 1 := by
  have h1 : t ≠ "__proto__" := by
    intro h
    exact ht (h ▸ List.mem_cons_self _ _)
  have h2 : ¬ protoFunctionKeys.any (fun y => y == t) := by
    intro h
    obtain ⟨y, hy, hyt⟩ := List.any_eq_true.mp h
    rw [show y = t by simpa using hyt] at hy
    exact ht (List.mem_cons_of_mem _ hy)
  unfold bumpVal
  rw [lookupOwn_eq_none acc t hown]
  simp [h1, h2]

/-- One `bumpTag` step on a prototype-safe tag preserves the counting
invariant: unique keys, an entry `(t, num c)` exactly when `t` occurs in
the processed prefix with multiplicity `c`, and every stored value a
number. -/
theorem bumpTag_good (acc : List (String × JsVal)) (pr : List String) (x : String)
    (hx : x ∉ protoKeys)
    (hnd : (acc.map Prod.fst).Nodup)
    (hmem : ∀ t c, ((t, JsVal.num c) ∈ acc ↔ t ∈ pr ∧ c = pr.count t))
    (hval : ∀ p ∈ acc, ∃ n, p.2 = JsVal.num n) :
    ((bumpTag acc x).map Prod.fst).Nodup
    ∧ (∀ t c, ((t, JsVal.num c) ∈ bumpTag acc x
        ↔ t ∈ pr ++ [x] ∧ c = (pr ++ [x]).count t))
    ∧ (∀ p ∈ bumpTag acc x, ∃ n, p.2 = JsVal.num n) := by
  have hx1 : x ≠ "__proto__" := by
    intro h
    exact hx (h ▸ List.mem_cons_self _ _)
  have hbt : bumpTag acc x
      = if acc.any (fun p => p.1 == x) then
          acc.map (fun p => if p.1 == x then (p.1, bumpVal acc x) else p)
        else acc ++ [(x, bumpVal acc x)] := by
    unfold bumpTag
    rw [if_neg (show ¬((x == "__proto__") = true) by simp [hx1])]
  by_cases h : acc.any (fun p => p.1 == x)
  · -- x is already an own key of the object
    obtain ⟨p0, hp0mem, hp0⟩ := List.any_eq_true.mp h
    have hp01 : p0.1 = x := by simpa using hp0
    obtain ⟨n0, hn0⟩ := hval p0 hp0mem
    have hp0acc : (x, JsVal.num n0) ∈ acc := by
      have hpe : p0 = (x, JsVal.num n0) := by
        rw [← hp01, ← hn0]
      rw [← hpe]
      exact hp0mem
    obtain ⟨hxpr, hcount⟩ := (hmem x n0).mp hp0acc
    have hn0pos : n0 ≠ 0 := by
      rw [hcount]
      intro h0
      exact (List.count_eq_zero.mp h0) hxpr
    have hbv : bumpVal acc x = JsVal.num (pr.count x + 1) := by
      rw [bumpVal_of_mem acc x n0 hnd hp0acc hn0pos, hcount]
    refine ⟨?_, ?_, ?_⟩
    · rw [bumpTag_keys acc x hx1, if_pos (by rw [any_map_eq]; exact h)]
      exact hnd
    · intro t c
      rw [hbt, if_pos h]
      constructor
      · intro htc
        rw [List.mem_map] at htc
        obtain ⟨q, hq, hgq⟩ := htc
        by_cases hq1 : q.1 = x
        · rw [if_pos (by simp [hq1])] at hgq
          rw [hbv] at hgq
          simp only [Prod.mk.injEq, JsVal.num.injEq] at hgq
          obtain ⟨rfl, rfl⟩ := hgq
          rw [hq1]
          refine ⟨List.mem_append_left _ hxpr, ?_⟩
          rw [count_append_single, if_pos rfl]
        · rw [if_neg (by simp [hq1])] at hgq
          subst hgq
          obtain ⟨htpr, hct⟩ := (hmem t c).mp hq
          refine ⟨List.mem_append_left _ htpr, ?_⟩
          rw [count_append_single, if_neg ?hne, Nat.add_zero]
          · exact hct
          case hne => exact hq1
      · rintro ⟨htm, hc⟩
        rw [List.mem_map]
        by_cases htx : t = x
        · subst htx
          rw [count_append_single, if_pos rfl] at hc
          refine ⟨(t, JsVal.num (pr.count t)), (hmem t (pr.count t)).mpr ⟨hxpr, rfl⟩, ?_⟩
          rw [if_pos (by simp), hbv, hc]
        · have htpr : t ∈ pr := by
            rcases List.mem_append.mp htm with h' | h'
            · exact h'
            · exact absurd (List.mem_singleton.mp h') htx
          rw [count_append_single, if_neg htx, Nat.add_zero] at hc
          refine ⟨(t, JsVal.num c), (hmem t c).mpr ⟨htpr, hc⟩, ?_⟩
          rw [if_neg (by simp [htx])]
    · intro p hp
      rw [hbt, if_pos h] at hp
      obtain ⟨q, hq, rfl⟩ := List.mem_map.mp hp
      by_cases hq1 : q.1 = x
      · exact ⟨pr.count x + 1, by rw [if_pos (by simp [hq1]), hbv]⟩
      · rw [if_neg (by simp [hq1])]
        exact hval q hq
  · -- x is a fresh own key, appended at the end
    have hkeys : ∀ p ∈ acc, p.1 ≠ x := by
      intro p hp hpeq
      exact h (List.any_eq_true.mpr ⟨p, hp, by simp [hpeq]⟩)
    have hxpr : x ∉ pr := by
      intro hxm
      exact hkeys (x, JsVal.num (pr.count x))
        ((hmem x (pr.count x)).mpr ⟨hxm, rfl⟩) rfl
    have hbv1 : bumpVal acc x = JsVal.num 1 := bumpVal_fresh acc x hkeys hx
    refine ⟨?_, ?_, ?_⟩
    · rw [bumpTag_keys acc x hx1, if_neg (by rw [any_map_eq]; simpa using h)]
      refine List.Nodup.append hnd (List.nodup_singleton x) ?_
      intro a ha hax
      rw [List.mem_singleton] at hax
      subst hax
      rw [List.mem_map] at ha
      obtain ⟨p, hp, hpa⟩ := ha
      exact hkeys p hp hpa
    · intro t c
      rw [hbt, if_neg h, hbv1, List.mem_append, List.mem_singleton]
      by_cases htx : t = x
      · subst htx
        constructor
        · rintro (hacc | heq)
          · exact absurd rfl (hkeys (t, JsVal.num c) hacc)
          · simp only [Prod.mk.injEq, JsVal.num.injEq] at heq
            refine ⟨List.mem_append_right _ (List.mem_singleton.mpr rfl), ?_⟩
            rw [count_append_single, if_pos rfl, List.count_eq_zero.mpr hxpr, heq.2]
        · rintro ⟨_, hc⟩
          right
          rw [count_append_single, if_pos rfl, List.count_eq_zero.mpr hxpr] at hc
          rw [hc]
      · constructor
        · rintro (hacc | heq)
          · obtain ⟨htpr, hct⟩ := (hmem t c).mp hacc
            refine ⟨List.mem_append_left _ htpr, ?_⟩
            rw [count_append_single, if_neg htx, Nat.add_zero]
            exact hct
          · simp only [Prod.mk.injEq, JsVal.num.injEq] at heq
            exact absurd heq.1 htx
        · rintro ⟨htm, hc⟩
          left
          have htpr : t ∈ pr := by
            rcases List.mem_append.mp htm with h' | h'
            · exact h'
            · exact absurd (List.mem_singleton.mp h') htx
          rw [count_append_single, if_neg htx, Nat.add_zero] at hc
          exact (hmem t c).mpr ⟨htpr, hc⟩
    · intro p hp
      rw [hbt, if_neg h, hbv1] at hp
      rcases List.mem_append.mp hp with h' | h'
      · exact hval p h'
      · rw [List.mem_singleton] at h'
        exact ⟨1, by rw [h']⟩

theorem foldl_bumpTag_good (l : List String) :
    ∀ (acc : List (String × JsVal)) (pr : List String),
      (∀ t ∈ l, t ∉ protoKeys) →
      (acc.map Prod.fst).Nodup →
      (∀ t c, ((t, JsVal.num c) ∈ acc ↔ t ∈ pr ∧ c = pr.count t)) →
      (∀ p ∈ acc, ∃ n, p.2 = JsVal.num n) →
      ((l.foldl bumpTag acc).map Prod.fst).Nodup
      ∧ (∀ t c, ((t, JsVal.num c) ∈ l.foldl bumpTag acc
          ↔ t ∈ pr ++ l ∧ c = (pr ++ l).count t))
      ∧ (∀ p ∈ l.foldl bumpTag acc, ∃ n, p.2 = JsVal.num n) := by
  induction l with
  | nil =>
    intro acc pr _ h1 h2 h3
    rw [List.foldl_nil]
    refine ⟨h1, ?_, h3⟩
    intro t c
    rw [List.append_nil]
    exact h2 t c
  | cons x xs ih =>
    intro acc pr hsafe h1 h2 h3
    rw [List.foldl_cons]
    obtain ⟨h1', h2', h3'⟩ :=
      bumpTag_good acc pr x (hsafe x (List.mem_cons_self x xs)) h1 h2 h3
    have := ih (bumpTag acc x) (pr ++ [x])
      (fun t ht => hsafe t (List.mem_cons_of_mem x ht)) h1' h2' h3'
    simpa [List.append_assoc] using this

/-- For prototype-safe tags, the `tagCounts` reduce computes, for each tag
occurring in the input, exactly one entry holding its multiplicity as a
number. -/
theorem tagCounts_good (l : List String) (hsafe : ∀ t ∈ l, t ∉ protoKeys) :
    ((tagCounts l).map Prod.fst).Nodup
    ∧ (∀ t c, ((t, JsVal.num c) ∈ tagCounts l ↔ t ∈ l ∧ c = l.count t))
    ∧ (∀ p ∈ tagCounts l, ∃ n, p.2 = JsVal.num n) := by
  have h := foldl_bumpTag_good l [] [] hsafe (by simp) (by simp) (by simp)
  simpa [tagCounts] using h

/-! ## Claim theorems: list_tags -/

/-- C8 (amended): for a user none of whose tags is an `Object.prototype`
property name ("__proto__", "toString", "constructor", ...), `list_tags`
returns exactly one entry per distinct non-null tag of the user's
records, with a numeric `count` equal to the number of records bearing
that tag, and records with null tag contribute nothing; the entries
appear with array-index-like tags (canonical decimal numerals below
2^32 - 1) first, in ascending numeric order, followed by the remaining
tags in insertion order of first occurrence among the returned rows, as
a JavaScript object enumerates its keys.  (A "__proto__" tag would
produce no entry at all, and other prototype-colliding tags a
string-valued count, see `proto_tag_entry_shapes`.) -/
theorem list_tags_counts_and_enumeration_order (s : Store) (u : String)
    (hsafe : ∀ t ∈ userTags u s, t ∉ protoKeys) :
    ∃ E A B,
      (handleCallTool "list_tags" ⟨some u, none, none, none, none, none⟩ none s).1
        = okResponse (Payload.tagsResult E)
      ∧ (E.map Prod.fst).Nodup
      ∧ (∀ t c, ((t, JsVal.num c) ∈ E ↔ t ∈ userTags u s ∧ c = (userTags u s).count t))
      ∧ (∀ p ∈ E, ∃ n, p.2 = JsVal.num n)
      ∧ E = A ++ B
      ∧ (∀ p ∈ A, isArrayIndexKey p.1 = true)
      ∧ (A.map Prod.fst).Pairwise (fun a b => (strToNat? a).getD 0 ≤ (strToNat? b).getD 0)
      ∧ List.Perm (A.map Prod.fst)
          ((dedupFirst (userTags u s)).filter (fun t => isArrayIndexKey t))
      ∧ B.map Prod.fst
          = (dedupFirst (userTags u s)).filter (fun t => !isArrayIndexKey t) := by
  have hproto : ∀ t ∈ userTags u s, t ≠ "__proto__" := by
    intro t ht he
    exact hsafe t ht (he ▸ List.mem_cons_self _ _)
  refine ⟨objEntries (tagCounts (userTags u s)),
    sortByIdx ((tagCounts (userTags u s)).filter (fun p => isArrayIndexKey p.1)),
    (tagCounts (userTags u s)).filter (fun p => !isArrayIndexKey p.1),
    rfl, ?_, ?_, ?_, rfl, ?_, ?_, ?_, ?_⟩
  · exact ((perm_objEntries _).map Prod.fst).nodup_iff.mpr
      (tagCounts_good (userTags u s) hsafe).1
  · intro t c
    exact (perm_objEntries _).mem_iff.trans
      ((tagCounts_good (userTags u s) hsafe).2.1 t c)
  · intro p hp
    exact (tagCounts_good (userTags u s) hsafe).2.2 p ((perm_objEntries _).mem_iff.mp hp)
  · intro p hp
    exact (List.mem_filter.mp ((perm_sortByIdx _).mem_iff.mp hp)).2
  · rw [List.pairwise_map]
    exact sorted_sortByIdx _
  · have he : ((tagCounts (userTags u s)).filter
        (fun p => isArrayIndexKey p.1)).map Prod.fst
        = (dedupFirst (userTags u s)).filter (fun t => isArrayIndexKey t) := by
      rw [filter_comp_map, tagCounts_keys (userTags u s) hproto]
    exact he ▸ ((perm_sortByIdx _).map Prod.fst)
  · rw [filter_comp_map Prod.fst (fun t => !isArrayIndexKey t),
      tagCounts_keys (userTags u s) hproto]

/-- Witness for the amended C8 at a concrete store whose tags "b" and "2"
are prototype-safe. -/
theorem list_tags_counts_and_enumeration_order_witness :
    ∃ E A B,
      (handleCallTool "list_tags" ⟨some "u1", none, none, none, none, none⟩ none
        ⟨[{ user_id := "u1", memory_key := "k1", content := "c1", tag := some "b",
            metadata := none, created_at := 0, updated_at := 0 },
          { user_id := "u1", memory_key := "k2", content := "c2", tag := some "2",
            metadata := none, created_at := 1, updated_at := 1 }], 2⟩).1
        = okResponse (Payload.tagsResult E)
      ∧ (E.map Prod.fst).Nodup
      ∧ (∀ t c, ((t, JsVal.num c) ∈ E
          ↔ t ∈ userTags "u1"
              ⟨[{ user_id := "u1", memory_key := "k1", content := "c1", tag := some "b",
                  metadata := none, created_at := 0, updated_at := 0 },
                { user_id := "u1", memory_key := "k2", content := "c2", tag := some "2",
                  metadata := none, created_at := 1, updated_at := 1 }], 2⟩
            ∧ c = (userTags "u1"
              ⟨[{ user_id := "u1", memory_key := "k1", content := "c1", tag := some "b",
                  metadata := none, created_at := 0, updated_at := 0 },
                { user_id := "u1", memory_key := "k2", content := "c2", tag := some "2",
                  metadata := none, created_at := 1, updated_at := 1 }], 2⟩).count t))
      ∧ (∀ p ∈ E, ∃ n, p.2 = JsVal.num n)
      ∧ E = A ++ B
      ∧ (∀ p ∈ A, isArrayIndexKey p.1 = true)
      ∧ (A.map Prod.fst).Pairwise (fun a b => (strToNat? a).getD 0 ≤ (strToNat? b).getD 0)
      ∧ List.Perm (A.map Prod.fst)
          ((dedupFirst (userTags "u1"
              ⟨[{ user_id := "u1", memory_key := "k1", content := "c1", tag := some "b",
                  metadata := none, created_at := 0, updated_at := 0 },
                { user_id := "u1", memory_key := "k2", content := "c2", tag := some "2",
                  metadata := none, created_at := 1, updated_at := 1 }], 2⟩)).filter
            (fun t => isArrayIndexKey t))
      ∧ B.map Prod.fst
          = (dedupFirst (userTags "u1"
              ⟨[{ user_id := "u1", memory_key := "k1", content := "c1", tag := some "b",
                  metadata := none, created_at := 0, updated_at := 0 },
                { user_id := "u1", memory_key := "k2", content := "c2", tag := some "2",
                  metadata := none, created_at := 1, updated_at := 1 }], 2⟩)).filter
            (fun t => !isArrayIndexKey t) :=
  list_tags_counts_and_enumeration_order
    ⟨[{ user_id := "u1", memory_key := "k1", content := "c1", tag := some "b",
        metadata := none, created_at := 0, updated_at := 0 },
      { user_id := "u1", memory_key := "k2", content := "c2", tag := some "2",
        metadata := none, created_at := 1, updated_at := 1 }], 2⟩
    "u1" (by decide)

/-- C8 counterexample: for user "u1" whose rows carry the tags "b" then
"2" (in returned-row order), the dispatcher returns the "2" entry first,
because a JavaScript object enumerates array-index-like keys before the
other string keys; the insertion order of first occurrence would put "b"
first. -/
theorem list_tags_not_insertion_order :
    (handleCallTool "list_tags" ⟨some "u1", none, none, none, none, none⟩ none
      ⟨[{ user_id := "u1", memory_key := "k1", content := "c1", tag := some "b",
          metadata := none, created_at := 0, updated_at := 0 },
        { user_id := "u1", memory_key := "k2", content := "c2", tag := some "2",
          metadata := none, created_at := 1, updated_at := 1 }], 2⟩).1
      = okResponse (Payload.tagsResult [("2", JsVal.num 1), ("b", JsVal.num 1)])
    ∧ ([("2", JsVal.num 1), ("b", JsVal.num 1)] : List (String × JsVal))
        ≠ [("b", JsVal.num 1), ("2", JsVal.num 1)] := by
  constructor
  · rfl
  · decide

/-- Prototype-chain behavior of the reduce accumulator, which motivates
the prototype-safety hypothesis of the amended C8 theorem: a row tagged
"__proto__" produces no tags entry at all (the assignment invokes the
inherited accessor setter, creating no own property), while a row tagged
"toString" reads the inherited function, so its stored count is a
concatenated string rather than the number of rows. -/
theorem proto_tag_entry_shapes :
    (handleCallTool "list_tags" ⟨some "u1", none, none, none, none, none⟩ none
      ⟨[{ user_id := "u1", memory_key := "k1", content := "c1", tag := some "__proto__",
          metadata := none, created_at := 0, updated_at := 0 }], 1⟩).1
      = okResponse (Payload.tagsResult [])
    ∧ (handleCallTool "list_tags" ⟨some "u1", none, none, none, none, none⟩ none
        ⟨[{ user_id := "u1", memory_key := "k1", content := "c1", tag := some "toString",
            metadata := none, created_at := 0, updated_at := 0 }], 1⟩).1
      = okResponse (Payload.tagsResult
          [("toString", JsVal.str (protoFuncString "toString" ++ "1"))]) := by
  constructor
  · rfl
  · rfl

end MemoryServer
